import Mathlib

/-!
# Verification of the virtualized list widget (fyne-advanced-list)

Shallow embedding of `list.go`. Numeric quantities that are `float32` in the
source (heights, offsets, padding) are modelled as rationals; row identifiers
(`ListItemID = int`) are modelled as integers; widget handles (`*listItem`
pointers, whose only role in the verified claims is object identity plus the
mutable fields set by `setupListItem`) are modelled as natural-number tokens
into an explicit heap.

The host-toolkit collaborators (the fyne scroll container, canvas, theme) are
not part of this repository; where one of them decides a property it is
modelled from its documented behavior and marked as such in its doc comment.
-/

namespace AdvList

/-- Fields of a row handle (`listItem`) that the verified claims observe:
the row-ID back-reference `li.id`, and the `selected` / `hovered` flags
written by `setupListItem`. -/
structure ItemFields where
  id : Int
  selected : Bool
  hovered : Bool
deriving DecidableEq, Repr

/-- `listItemAndID`: one element of the visible set, a handle token paired
with the row ID it is bound to. -/
structure Entry where
  item : Nat
  id : Int
deriving DecidableEq, Repr

/-- The fields of `List` (and the theme/scroller geometry it reads) that the
verified claims depend on.

* `length` models the result of the `l.Length()` callback (a nil callback
  behaves as length 0 throughout the source).
* `itemMinW`/`itemMinH` model `l.itemMin`.
* `itemHeights` models the `map[ListItemID]float32` of height overrides,
  as an association list with distinct keys maintained by insertion.
* `offsetY` models `l.offsetY`, kept in sync with `l.scroller.Offset.Y`
  by `offsetUpdated`.
* `scrollerHeight` models `l.scroller.Size().Height`; the renderer's
  `Layout` resizes the scroller to the widget size, so it also stands for
  `l.Size().Height`.
* `padding` models `theme.Size(theme.SizeNamePadding)`, the separator
  thickness used in all layout computations.
* `hasCreateItem` records whether the `CreateItem` callback is non-nil. -/
structure ListState where
  length : Nat
  itemMinW : ℚ
  itemMinH : ℚ
  itemHeights : List (Int × ℚ)
  offsetY : ℚ
  scrollerHeight : ℚ
  padding : ℚ
  selected : List Int
  focused : Bool
  currentFocus : Int
  hasCreateItem : Bool
deriving DecidableEq, Repr

/-- Go map read `l.itemHeights[id]` (present entry only; callers supply the
default explicitly, mirroring the `h, ok :=` pattern). -/
def mapLookup : List (Int × ℚ) → Int → Option ℚ
  | [], _ => none
  | (k, v) :: rest, id => if k = id then some v else mapLookup rest id

/-- Go map write `l.itemHeights[id] = height`: replace the entry if the key
is present, otherwise add it. -/
def mapInsert : List (Int × ℚ) → Int → ℚ → List (Int × ℚ)
  | [], id, h => [(id, h)]
  | (k, v) :: rest, id, h =>
      if k = id then (id, h) :: rest else (k, v) :: mapInsert rest id h

/-- `SetItemHeight` (list.go:186): records the override. The `refresh`
branch only re-binds an on-screen row; it does not change any state modelled
here, so the model is the map update alone. -/
def SetItemHeight (m : ListState) (id : Int) (height : ℚ) : ListState :=
  { m with itemHeights := mapInsert m.itemHeights id height }

/-- The `Length` callback is external: the list re-reads it on every pass.
Truncating or re-growing the underlying data is modelled as replacing the
`length` field; no source code path touches `itemHeights` when the length
changes. -/
def setLength (m : ListState) (n : Nat) : ListState :=
  { m with length := n }

/-- `contentMinSize` (list.go:393): (width, height) of the full content.
With no overrides, a closed form; with overrides, a pass over the height
table counting only entries with `id < items` (Go map iteration order is
arbitrary; the sum and count are order-independent, so the model folds over
the association list). -/
def contentMinSize (m : ListState) : ℚ × ℚ :=
  let separatorThickness := m.padding
  let items := m.length
  if m.itemHeights = [] then
    (m.itemMinW, (m.itemMinH + separatorThickness) * (items : ℚ) - separatorThickness)
  else
    let live := m.itemHeights.filter (fun kv => kv.1 < (items : Int))
    let totalCustom := live.length
    let height := (live.map (fun kv => kv.2)).sum
    let height := height + (((items : Int) - (totalCustom : Int) : Int) : ℚ) * m.itemMinH
    (m.itemMinW, height + separatorThickness * (((items : Int) - 1 : Int) : ℚ))

/-- The linear scan of `calculateVisibleRowHeights` (list.go:487), the
variable-height path: `for i := 0; i < length; i++` with an early `break`.
`remaining = length - i` is the loop fuel; the `break` returns without
recursing. State threaded exactly as in the source: `rowOffset`, the named
results `offY`/`minRow`, the `isVisible` flag, and the accumulated
`visibleRowHeights`. -/
def cvrhScan (m : ListState) (itemHeight padding : ℚ) :
    Nat → Nat → ℚ → ℚ → Int → Bool → List ℚ → ℚ × Int × List ℚ
  | 0, _, _, offY, minRow, _, acc => (offY, minRow, acc)
  | remaining + 1, i, rowOffset, offY, minRow, isVisible, acc =>
      let height := (mapLookup m.itemHeights (i : Int)).getD itemHeight
      let state :=
        if rowOffset ≤ m.offsetY - height - padding then
          (offY, minRow, isVisible)
        else if rowOffset ≤ m.offsetY then
          (rowOffset, (i : Int), true)
        else
          (offY, minRow, isVisible)
      let offY := state.1
      let minRow := state.2.1
      let isVisible := state.2.2
      if rowOffset ≥ m.offsetY + m.scrollerHeight then
        (offY, minRow, acc)
      else
        let rowOffset := rowOffset + height + padding
        let acc := if isVisible then acc ++ [height] else acc
        cvrhScan m itemHeight padding remaining (i + 1) rowOffset offY minRow isVisible acc

/-- `calculateVisibleRowHeights` (list.go:451): returns
`(offY, minRow, visibleRowHeights)`.  `itemHeight` is `l.itemMin.Height`
as passed by `updateList`. Math on `float32`/`float64` (with `math.Floor`,
`math.Ceil`) is modelled exactly over the rationals. -/
def calculateVisibleRowHeights (m : ListState) : ℚ × Int × List ℚ :=
  let itemHeight := m.itemMinH
  let length := m.length
  if m.scrollerHeight ≤ 0 then (0, 0, [])
  else
    let padding := m.padding
    if m.itemHeights = [] then
      let paddedItemHeight := itemHeight + padding
      let offY : ℚ := (⌊m.offsetY / paddedItemHeight⌋ : Int) * paddedItemHeight
      let minRow : Int := ⌊offY / paddedItemHeight⌋
      let maxRow : Int := ⌈(offY + m.scrollerHeight) / paddedItemHeight⌉
      let minRow := if minRow > (length : Int) - 1 then (length : Int) - 1 else minRow
      let pair := if minRow < 0 then ((0 : Int), (0 : ℚ)) else (minRow, offY)
      let minRow := pair.1
      let offY := pair.2
      let maxRow := if maxRow > (length : Int) - 1 then (length : Int) - 1 else maxRow
      (offY, minRow, List.replicate (maxRow - minRow + 1).toNat itemHeight)
    else
      cvrhScan m itemHeight padding length 0 0 0 0 false []

/-- The loop of Go's `sort.Search(n, f)`:
`i, j := 0, n; for i < j { h := (i+j)/2; if !f(h) { i = h+1 } else { j = h } }; return i`.
The interval halves every iteration, so `j - i` (at most `n` at the first
call) bounds the iteration count and serves as structural fuel; with enough
fuel the `fuel = 0` base case is never the exit taken. -/
def sortSearchLoop (f : Nat → Bool) : Nat → Nat → Nat → Nat
  | 0, i, _ => i
  | fuel + 1, i, j =>
      if i < j then
        let h := (i + j) / 2
        if f h then sortSearchLoop f fuel i h else sortSearchLoop f fuel (h + 1) j
      else i

/-- `sort.Search(n, f)`. -/
def sortSearch (n : Nat) (f : Nat → Bool) : Nat :=
  sortSearchLoop f n 0 n

/-- `searchVisible` (list.go:977): binary search of the sorted visible set
for a row ID, returning the bound handle. Go's in-bounds indexing
`visible[i]` is modelled with `getD` and a default entry; `sort.Search`
only evaluates the predicate at indices below `len(visible)`. -/
def searchVisible (visible : List Entry) (id : Int) : Option Nat :=
  let ln := visible.length
  let idx := sortSearch ln (fun i => decide ((visible.getD i ⟨0, 0⟩).id ≥ id))
  if idx < ln ∧ (visible.getD idx ⟨0, 0⟩).id = id then
    some (visible.getD idx ⟨0, 0⟩).item
  else
    none

/-- `getItem` (list.go:782): take a recycled handle from the pool, else
construct a fresh one when `CreateItem` is set, else nothing (the caller
skips the row). `sync.Pool` hands out handles in an unspecified order; the
model takes the head of the pool list. A fresh handle is the next unused
token, with the zero-valued fields of a newly constructed `listItem`. -/
def getItem (pool : List Nat) (nextHandle : Nat) (hasCreateItem : Bool) :
    Option (Nat × List Nat × Nat) :=
  match pool with
  | c :: rest => some (c, rest, nextHandle)
  | [] => if hasCreateItem then some (nextHandle, [], nextHandle + 1) else none

/-- `setupListItem` (list.go:804) as a transformation of the handle's
fields: binds the row ID, recomputes the selected flag from the list's
selection (the `for ... break` loop is membership), and applies the
hover/focus branches. The `UpdateItem` call, the `Refresh` calls and the
`onTapped` closure do not change any state modelled here. -/
def setupFields (lst : ListState) (li : ItemFields) (id : Int) (focus : Bool) : ItemFields :=
  let previousIndicator := li.selected
  let sel := lst.selected.any (fun s => id = s)
  let hov :=
    if focus then true
    else if previousIndicator ≠ sel ∨ li.hovered then false
    else li.hovered
  { id := id, selected := sel, hovered := hov }

/-- Pointwise heap update at one handle token. -/
def heapUpdate (heap : Nat → ItemFields) (t : Nat) (f : ItemFields) : Nat → ItemFields :=
  fun t' => if t' = t then f else heap t'

/-- `setupListItem` applied on the heap at the handle of one visible entry. -/
def setupEntry (lst : ListState) (heap : Nat → ItemFields) (e : Entry) : Nat → ItemFields :=
  heapUpdate heap e.item
    (setupFields lst (heap e.item) e.id (lst.focused ∧ lst.currentFocus = e.id))

/-- The state owned by `listLayout` that the verified claims observe:
the list it lays out, the visible set, the carried-over `wasVisible`
scratch slice, the item pool, the allocation counter for fresh handles,
and the heap of handle fields. (`children`, `separators` and the item
positions/sizes are canvas bookkeeping that no claim mentions and are not
modelled.) -/
structure LayoutState where
  list : ListState
  visible : List Entry
  wasVisible : List Entry
  pool : List Nat
  nextHandle : Nat
  heap : Nat → ItemFields

/-- The per-row loop of `updateList` (list.go:864): for each visible row
height, reuse the handle bound to that row in the previous visible set if
there is one, otherwise acquire a pooled or fresh handle (skipping the row
when neither exists), and append the (handle, row) pair to the new visible
set. `row = index + minRow`; the `Move`/`Resize` calls are positional only
and not modelled. Structural recursion over the height list. -/
def updateRows (wasVisible : List Entry) (minRow : Int) (hasCreateItem : Bool) :
    List ℚ → Nat → List Entry → List Nat → Nat → List Entry × List Nat × Nat
  | [], _, vis, pool, nextHandle => (vis, pool, nextHandle)
  | _ :: rest, index, vis, pool, nextHandle =>
      let row : Int := (index : Int) + minRow
      match searchVisible wasVisible row with
      | some c =>
          updateRows wasVisible minRow hasCreateItem rest (index + 1)
            (vis ++ [⟨c, row⟩]) pool nextHandle
      | none =>
          match getItem pool nextHandle hasCreateItem with
          | none =>
              updateRows wasVisible minRow hasCreateItem rest (index + 1)
                vis pool nextHandle
          | some (c, pool', nextHandle') =>
              updateRows wasVisible minRow hasCreateItem rest (index + 1)
                (vis ++ [⟨c, row⟩]) pool' nextHandle'

/-- `updateList` (list.go:838).  In order: fold the previous visible set
into `wasVisible`, recompute the visible range, bail out early when there
are rows but no computed heights, rebuild the visible set reusing handles
via `searchVisible`, release to the pool every handle whose row left the
visible set, then re-bind content: with `newOnly = true` only rows that
entered the visible set, otherwise all visible rows. Finally `wasVisible`
is cleared. (`updateSeparators` and the scroller-content bookkeeping touch
only canvas objects and are not modelled.) -/
def updateList (s : LayoutState) (newOnly : Bool) : LayoutState :=
  let length := s.list.length
  let wasVisible := s.wasVisible ++ s.visible
  let r := calculateVisibleRowHeights s.list
  let minRow := r.2.1
  let visibleRowHeights := r.2.2
  if visibleRowHeights.length = 0 ∧ 0 < length then
    { s with visible := [], wasVisible := wasVisible }
  else
    let u := updateRows wasVisible minRow s.list.hasCreateItem visibleRowHeights 0 [] s.pool s.nextHandle
    let visible := u.1
    let pool := u.2.1
    let nextHandle := u.2.2
    let released := (wasVisible.filter (fun w => (searchVisible visible w.id).isNone)).map Entry.item
    let pool := pool ++ released
    let heap :=
      if newOnly then
        visible.foldl
          (fun hp e => if (searchVisible wasVisible e.id).isNone then setupEntry s.list hp e else hp)
          s.heap
      else
        visible.foldl (fun hp e => setupEntry s.list hp e) s.heap
    { s with visible := visible, wasVisible := [], pool := pool,
             nextHandle := nextHandle, heap := heap }

/-- The height-accumulation loop of `scrollTo` (list.go:210):
`for i := 0; i < id; i++ { y += height(i) + separatorThickness }`. -/
def scrollToY (m : ListState) (sep : ℚ) : Nat → ℚ
  | 0 => 0
  | i + 1 => scrollToY m sep i + (mapLookup m.itemHeights (i : Int)).getD m.itemMinH + sep

/-- `scrollTo` (list.go:199): compute the target row's top `y` and last
height, then move the scroller offset the minimal distance that brings the
row into view.  `l.scroller.Offset.Y` and `l.offsetY` are kept equal by
`offsetUpdated`, so a single `offsetY` field stands for both; the
`offsetUpdated` call also re-runs `updateList`, which touches no
`ListState` field.  Callers guarantee `id` is in range, hence a `Nat`
argument. -/
def scrollTo (m : ListState) (id : Nat) : ListState :=
  let separatorThickness := m.padding
  let yLast :=
    if m.itemHeights = [] then
      (((id : ℚ) * m.itemMinH) + ((id : ℚ) * separatorThickness), m.itemMinH)
    else
      (scrollToY m separatorThickness id,
       (mapLookup m.itemHeights (id : Int)).getD m.itemMinH)
  let y := yLast.1
  let lastItemHeight := yLast.2
  if y < m.offsetY then
    { m with offsetY := y }
  else if y + m.itemMinH > m.offsetY + m.scrollerHeight then
    { m with offsetY := y + lastItemHeight - m.scrollerHeight }
  else
    m

/-- The selection/unselection notifications a call fires, in order. The
model emits an event exactly where the source invokes the corresponding
non-nil callback. -/
inductive Event where
  | selected (id : Int)
  | unselected (id : Int)
deriving DecidableEq, Repr

/-- `Select` (list.go:245): no-op when `id` is already the current
selection or out of range; otherwise replace the selection, scroll to the
row, refresh, and fire the deferred callbacks - `OnUnselected` for the old
selection (when there was one) and then `OnSelected` for the new one. -/
def Select (m : ListState) (id : Int) : ListState × List Event :=
  if (match m.selected with | s0 :: _ => decide (id = s0) | [] => false) then (m, [])
  else if id < 0 ∨ (m.length : Int) ≤ id then (m, [])
  else
    let old := m.selected
    let m := { m with selected := [id] }
    let m := scrollTo m id.toNat
    -- l.Refresh() re-renders; no ListState field changes
    (m, (match old with | o :: _ => [Event.unselected o] | [] => []) ++ [Event.selected id])

/-- `ScrollTo` (list.go:273): silently ignore an out-of-range id, else
scroll to the row and refresh. -/
def ScrollTo (m : ListState) (id : Int) : ListState :=
  if id < 0 ∨ (m.length : Int) ≤ id then m
  else scrollTo m id.toNat

/-- Modelled from the spec: the final clamp of the scroll offset happens in
the host toolkit's scroll container (`container.Scroll.ScrollToOffset`,
fyne, outside this repository), which per the spec keeps the offset
"clamped to [0, contentHeight - viewportHeight]". -/
def scrollContainerClampY (contentHeight viewportHeight offset : ℚ) : ℚ :=
  max 0 (min offset (contentHeight - viewportHeight))

/-- `ScrollToOffset` (list.go:304): negative targets become 0; when the
content already fits the viewport nothing happens; otherwise the target is
capped at `contentHeight` and handed to the host scroll container, whose
resulting (clamped) offset is read back by `offsetUpdated`. -/
def ScrollToOffset (m : ListState) (offset : ℚ) : ListState :=
  let offset := if offset < 0 then 0 else offset
  let contentHeight := (contentMinSize m).2
  if contentHeight ≤ m.scrollerHeight then m
  else
    let offset := if offset > contentHeight then contentHeight else offset
    { m with offsetY := scrollContainerClampY contentHeight m.scrollerHeight offset }

/-! ## Helper lemmas -/

/-- `scrollTo` changes only the scroll offset. -/
theorem scrollTo_selected (m : ListState) (id : Nat) :
    (scrollTo m id).selected = m.selected := by
  unfold scrollTo
  dsimp only
  split
  all_goals split
  any_goals rfl
  all_goals split <;> rfl

/-- The concrete uniform-height scenario of the spec: 1000 items of height
30, viewport 300, no overrides, separator thickness 0. -/
def uniformScenario : ListState :=
  { length := 1000, itemMinW := 100, itemMinH := 30, itemHeights := [],
    offsetY := 0, scrollerHeight := 300, padding := 0,
    selected := [], focused := false, currentFocus := 0, hasCreateItem := true }

/-- Invariant of the `sort.Search` loop: given enough fuel, a predicate
monotone below `n`, nothing true below `i` and everything true on `[j, n)`,
the loop returns the boundary: false strictly below it, true from it up
to `n`. -/
theorem sortSearchLoop_spec (f : Nat → Bool) (n : Nat)
    (hmono : ∀ a b, a ≤ b → b < n → f a = true → f b = true) :
    ∀ fuel i j, i ≤ j → j ≤ n → j - i ≤ fuel →
      (∀ k, k < i → f k = false) → (∀ k, j ≤ k → k < n → f k = true) →
      i ≤ sortSearchLoop f fuel i j ∧ sortSearchLoop f fuel i j ≤ j ∧
      (∀ k, k < sortSearchLoop f fuel i j → f k = false) ∧
      (∀ k, sortSearchLoop f fuel i j ≤ k → k < n → f k = true) := by
  intro fuel
  induction fuel with
  | zero =>
      intro i j hij hjn hfuel hlo hhi
      simp only [sortSearchLoop]
      exact ⟨le_refl i, hij, hlo, fun k hk hkn => hhi k (by omega) hkn⟩
  | succ fuel ih =>
      intro i j hij hjn hfuel hlo hhi
      simp only [sortSearchLoop]
      by_cases hlt : i < j
      · rw [if_pos hlt]
        have hmid1 : i ≤ (i + j) / 2 := by omega
        have hmid2 : (i + j) / 2 < j := by omega
        by_cases hf : f ((i + j) / 2) = true
        · rw [if_pos hf]
          have hres := ih i ((i + j) / 2) hmid1 (by omega) (by omega) hlo
            (fun k hk hkn => hmono _ k hk hkn hf)
          exact ⟨hres.1, le_trans hres.2.1 (le_of_lt hmid2), hres.2.2.1, hres.2.2.2⟩
        · rw [if_neg hf]
          have hlo' : ∀ k, k < (i + j) / 2 + 1 → f k = false := by
            intro k hk
            cases hc : f k with
            | false => rfl
            | true => exact absurd (hmono k ((i + j) / 2) (by omega) (by omega) hc) hf
          have hres := ih ((i + j) / 2 + 1) j (by omega) hjn (by omega) hlo' hhi
          exact ⟨le_trans (by omega) hres.1, hres.2.1, hres.2.2.1, hres.2.2.2⟩
      · rw [if_neg hlt]
        have hij' : i = j := by omega
        exact ⟨le_refl i, hij, hlo, fun k hk hkn => hhi k (by omega) hkn⟩

/-- `sort.Search(n, f)` with `f` monotone below `n` returns the least index
at which `f` holds (or `n`). -/
theorem sortSearch_spec (f : Nat → Bool) (n : Nat)
    (hmono : ∀ a b, a ≤ b → b < n → f a = true → f b = true) :
    sortSearch n f ≤ n ∧
    (∀ k, k < sortSearch n f → f k = false) ∧
    (∀ k, sortSearch n f ≤ k → k < n → f k = true) := by
  have h := sortSearchLoop_spec f n hmono n 0 n (Nat.zero_le n) (le_refl n)
    (by omega) (fun k hk => absurd hk (Nat.not_lt_zero k)) (fun k hk hkn => absurd hkn (by omega))
  exact ⟨h.2.1, h.2.2.1, h.2.2.2⟩

/-- In a visible set strictly ascending by ID, positions are monotone in
IDs. -/
theorem sorted_getD_id_le (l : List Entry)
    (hs : l.Pairwise (fun a b => a.id < b.id)) (a b : Nat)
    (hab : a ≤ b) (hbn : b < l.length) :
    (l.getD a ⟨0, 0⟩).id ≤ (l.getD b ⟨0, 0⟩).id := by
  rcases Nat.lt_or_ge a b with hlt | hge
  · have han : a < l.length := lt_trans hlt hbn
    rw [List.getD_eq_get l _ han, List.getD_eq_get l _ hbn]
    exact le_of_lt (List.pairwise_iff_get.mp hs ⟨a, han⟩ ⟨b, hbn⟩ hlt)
  · have hab' : a = b := by omega
    subst hab'
    exact le_refl _

/-- Binary-search correctness, the direction `updateList` relies on: in a
visible set strictly ascending by ID, `searchVisible` finds the handle
bound to any member ID. -/
theorem searchVisible_eq_some_of_mem (l : List Entry)
    (hs : l.Pairwise (fun a b => a.id < b.id)) (h : Nat) (id : Int)
    (hmem : (⟨h, id⟩ : Entry) ∈ l) :
    searchVisible l id = some h := by
  obtain ⟨p, hp⟩ := List.mem_iff_get.mp hmem
  have hmono : ∀ a b, a ≤ b → b < l.length →
      decide ((l.getD a ⟨0, 0⟩).id ≥ id) = true →
      decide ((l.getD b ⟨0, 0⟩).id ≥ id) = true := by
    intro a b hab hbn hfa
    rw [decide_eq_true_eq] at hfa ⊢
    exact le_trans hfa (sorted_getD_id_le l hs a b hab hbn)
  obtain ⟨hle, hlo, hhi⟩ :=
    sortSearch_spec (fun i => decide ((l.getD i ⟨0, 0⟩).id ≥ id)) l.length hmono
  set r := sortSearch l.length (fun i => decide ((l.getD i ⟨0, 0⟩).id ≥ id)) with hr
  have hfp : decide ((l.getD (p : Nat) ⟨0, 0⟩).id ≥ id) = true := by
    rw [decide_eq_true_eq, List.getD_eq_get l _ p.isLt, hp]
  have hrp : r ≤ (p : Nat) := by
    by_contra hc
    push_neg at hc
    have hfalse := hlo (p : Nat) hc
    rw [hfp] at hfalse
    exact Bool.noConfusion hfalse
  have hrn : r < l.length := lt_of_le_of_lt hrp p.isLt
  have hratp : (l.getD r ⟨0, 0⟩).id ≥ id := by
    have hfr := hhi r (le_refl r) hrn
    rwa [decide_eq_true_eq] at hfr
  have hreq : r = (p : Nat) := by
    rcases Nat.lt_or_ge r (p : Nat) with hlt | hge
    · exfalso
      have hstrict := List.pairwise_iff_get.mp hs ⟨r, hrn⟩ p hlt
      rw [List.getD_eq_get l _ hrn] at hratp
      rw [hp] at hstrict
      dsimp only at hstrict
      omega
    · omega
  unfold searchVisible
  dsimp only
  rw [← hr, hreq, List.getD_eq_get l _ p.isLt, hp]
  simp

/-- Entries already accumulated stay in the result of the row loop. -/
theorem updateRows_mem_mono (wasVis : List Entry) (minRow : Int) (hc : Bool) :
    ∀ (heights : List ℚ) (index : Nat) (vis : List Entry) (pool : List Nat) (next : Nat)
      (e : Entry), e ∈ vis →
      e ∈ (updateRows wasVis minRow hc heights index vis pool next).1 := by
  intro heights
  induction heights with
  | nil =>
      intro index vis pool next e he
      simpa [updateRows] using he
  | cons q rest ih =>
      intro index vis pool next e he
      simp only [updateRows]
      cases hm : searchVisible wasVis ((index : Int) + minRow) with
      | some c => exact ih _ _ _ _ _ (List.mem_append_left _ he)
      | none =>
          cases hg : getItem pool next hc with
          | none => exact ih _ _ _ _ _ he
          | some t =>
              obtain ⟨c, pool', next'⟩ := t
              exact ih _ _ _ _ _ (List.mem_append_left _ he)

/-- Any row of the computed range whose ID is found in the previous visible
set appears in the new visible set with exactly the handle the search
returned. -/
theorem updateRows_mem_of_found (wasVis : List Entry) (minRow : Int) (hc : Bool) :
    ∀ (heights : List ℚ) (index : Nat) (vis : List Entry) (pool : List Nat) (next : Nat)
      (j : Nat) (h : Nat),
      index ≤ j → j < index + heights.length →
      searchVisible wasVis ((j : Int) + minRow) = some h →
      (⟨h, (j : Int) + minRow⟩ : Entry) ∈
        (updateRows wasVis minRow hc heights index vis pool next).1 := by
  intro heights
  induction heights with
  | nil =>
      intro index vis pool next j h hij hjlt _
      simp at hjlt
      omega
  | cons q rest ih =>
      intro index vis pool next j h hij hjlt hsearch
      simp only [updateRows]
      rcases Nat.eq_or_lt_of_le hij with heq | hlt
      · subst heq
        rw [hsearch]
        exact updateRows_mem_mono wasVis minRow hc rest (index + 1) _ pool next _
          (List.mem_append_right _ (List.mem_singleton_self _))
      · have hjlt' : j < (index + 1) + rest.length := by
          simp at hjlt
          omega
        cases hm : searchVisible wasVis ((index : Int) + minRow) with
        | some c => exact ih (index + 1) _ pool next j h hlt hjlt' hsearch
        | none =>
            cases hg : getItem pool next hc with
            | none => exact ih (index + 1) _ pool next j h hlt hjlt' hsearch
            | some t =>
                obtain ⟨c, pool', next'⟩ := t
                exact ih (index + 1) _ pool' next' j h hlt hjlt' hsearch

/-- The row loop preserves strict ascending order and keeps every ID below
the first row past the processed range. -/
theorem updateRows_sorted (wasVis : List Entry) (minRow : Int) (hc : Bool) :
    ∀ (heights : List ℚ) (index : Nat) (vis : List Entry) (pool : List Nat) (next : Nat),
      vis.Pairwise (fun a b => a.id < b.id) →
      (∀ e ∈ vis, e.id < (index : Int) + minRow) →
      (updateRows wasVis minRow hc heights index vis pool next).1.Pairwise
        (fun a b => a.id < b.id) ∧
      (∀ e ∈ (updateRows wasVis minRow hc heights index vis pool next).1,
        e.id < (index : Int) + (heights.length : Int) + minRow) := by
  intro heights
  induction heights with
  | nil =>
      intro index vis pool next hp hb
      simp only [updateRows, List.length_nil]
      exact ⟨hp, fun e he => by have := hb e he; omega⟩
  | cons q rest ih =>
      intro index vis pool next hp hb
      simp only [updateRows, List.length_cons]
      have hstep : ∀ c : Nat,
          (vis ++ [(⟨c, (index : Int) + minRow⟩ : Entry)]).Pairwise (fun a b => a.id < b.id) ∧
          (∀ e ∈ vis ++ [(⟨c, (index : Int) + minRow⟩ : Entry)],
            e.id < ((index + 1 : Nat) : Int) + minRow) := by
        intro c
        constructor
        · rw [List.pairwise_append]
          refine ⟨hp, List.pairwise_singleton _ _, ?_⟩
          intro a ha b hbm
          rw [List.mem_singleton] at hbm
          subst hbm
          exact hb a ha
        · intro e he
          rcases List.mem_append.mp he with hv | hs
          · have := hb e hv
            push_cast
            omega
          · rw [List.mem_singleton] at hs
            subst hs
            push_cast
            omega
      have hweak : ∀ e ∈ vis, e.id < ((index + 1 : Nat) : Int) + minRow := by
        intro e he
        have := hb e he
        push_cast
        omega
      cases hm : searchVisible wasVis ((index : Int) + minRow) with
      | some c =>
          have hres := ih (index + 1) _ pool next (hstep c).1 (hstep c).2
          refine ⟨hres.1, fun e he => ?_⟩
          have := hres.2 e he
          push_cast at this ⊢
          omega
      | none =>
          cases hg : getItem pool next hc with
          | none =>
              have hres := ih (index + 1) vis pool next hp hweak
              refine ⟨hres.1, fun e he => ?_⟩
              have := hres.2 e he
              push_cast at this ⊢
              omega
          | some t =>
              obtain ⟨c, pool', next'⟩ := t
              have hres := ih (index + 1) _ pool' next' (hstep c).1 (hstep c).2
              refine ⟨hres.1, fun e he => ?_⟩
              have := hres.2 e he
              push_cast at this ⊢
              omega

/-- A fold whose step only writes the heap at the entry's own handle leaves
every other handle's fields untouched. -/
theorem foldl_heap_unchanged (F : (Nat → ItemFields) → Entry → Nat → ItemFields)
    (hF : ∀ hp e t, t ≠ e.item → F hp e t = hp t) :
    ∀ (vs : List Entry) (hp : Nat → ItemFields) (t : Nat),
      (∀ e ∈ vs, e.item ≠ t) → vs.foldl F hp t = hp t := by
  intro vs
  induction vs with
  | nil => intro hp t _; rfl
  | cons e rest ih =>
      intro hp t h
      simp only [List.foldl_cons]
      rw [ih (F hp e) t (fun x hx => h x (List.mem_cons_of_mem e hx))]
      exact hF hp e t (Ne.symm (h e (List.mem_cons_self e rest)))

/-- `setupEntry` writes only at the entry's own handle. -/
theorem setupEntry_ne (lst : ListState) (hp : Nat → ItemFields) (e : Entry) (t : Nat)
    (h : t ≠ e.item) : setupEntry lst hp e t = hp t := by
  unfold setupEntry heapUpdate
  rw [if_neg h]

/-! ## Claims -/

/-- C1, counterexample: in the scenario itemCount=1000, uniform height 30,
viewport 300, separator 0, at scroll offset 0 the computation returns
minRow 0 with 11 row heights, i.e. the row range [0,11), not the claimed
[0,10): the extra row starts exactly at the viewport bottom edge, so it is
not even partially clipped. -/
theorem c1_visible_range_counterexample :
    (calculateVisibleRowHeights uniformScenario).2.1 = 0 ∧
    (calculateVisibleRowHeights uniformScenario).2.2.length = 11 ∧
    ¬ (calculateVisibleRowHeights uniformScenario).2.2.length = 10 := by
  with_unfolding_all decide

/-- C1, amended: for itemCount=1000, uniform row height 30, viewport 300
and separator thickness 0, the visible-range computation returns the row
range [0,11) at scroll offset 0 (one extra row beyond the exactly-covered
[0,10)), and the row range [10,21) at scroll offset 315. -/
theorem c1_visible_range_amended :
    calculateVisibleRowHeights uniformScenario = (0, 0, List.replicate 11 30) ∧
    calculateVisibleRowHeights { uniformScenario with offsetY := 315 } =
      (300, 10, List.replicate 11 30) := by
  with_unfolding_all decide

/-- C3: selecting a valid id distinct from the single currently selected
item replaces the selection with exactly the new id and fires exactly one
unselect callback for the old id followed by the select callback for the
new id. -/
theorem c3_select_unselects_old (m : ListState) (old id : Int)
    (hsel : m.selected = [old]) (hne : old ≠ id)
    (h0 : 0 ≤ id) (hlen : id < (m.length : Int)) :
    (Select m id).1.selected = [id] ∧
    (Select m id).2 = [Event.unselected old, Event.selected id] := by
  have hguard : ¬ (id < 0 ∨ (m.length : Int) ≤ id) := by omega
  unfold Select
  rw [hsel]
  simp only [decide_eq_true_eq]
  rw [if_neg (by simpa using fun h => hne h.symm), if_neg hguard]
  exact ⟨scrollTo_selected _ _, rfl⟩

/-- C3 witness. -/
theorem c3_select_unselects_old_witness :
    (Select { uniformScenario with selected := [5] } 7).1.selected = [7] ∧
    (Select { uniformScenario with selected := [5] } 7).2 =
      [Event.unselected 5, Event.selected 7] :=
  c3_select_unselects_old { uniformScenario with selected := [5] } 5 7 rfl
    (by decide) (by decide) (by with_unfolding_all decide)

/-- C5: `Select` and `ScrollTo` with an id below 0 or at or beyond the item
count are silently ignored - no callback fires and no state changes. -/
theorem c5_out_of_range_ignored (m : ListState) (id : Int)
    (h : id < 0 ∨ (m.length : Int) ≤ id) :
    Select m id = (m, []) ∧ ScrollTo m id = m := by
  constructor
  · unfold Select
    split <;> rfl
  · unfold ScrollTo
    rw [if_pos h]

/-- C5 witness. -/
theorem c5_out_of_range_ignored_witness :
    Select uniformScenario 1000 = (uniformScenario, []) ∧
    ScrollTo uniformScenario 1000 = uniformScenario :=
  c5_out_of_range_ignored uniformScenario 1000 (by with_unfolding_all decide)

/-- C6: with a zero or negative viewport height the visible-range
computation returns no row heights and the reconciler leaves the visible
set empty, for every offset, item count and previous state. -/
theorem c6_empty_viewport_renders_nothing (s : LayoutState) (b : Bool)
    (h : s.list.scrollerHeight ≤ 0) :
    (calculateVisibleRowHeights s.list).2.2 = [] ∧
    (updateList s b).visible = [] := by
  have hc : calculateVisibleRowHeights s.list = (0, 0, []) := by
    unfold calculateVisibleRowHeights
    rw [if_pos h]
  refine ⟨by rw [hc], ?_⟩
  unfold updateList
  rw [hc]
  by_cases hl : 0 < s.list.length
  · simp [hl]
  · simp [hl, updateRows]

/-- C6 witness. -/
theorem c6_empty_viewport_renders_nothing_witness :
    (calculateVisibleRowHeights { uniformScenario with scrollerHeight := 0 }).2.2 = [] ∧
    (updateList
        { list := { uniformScenario with scrollerHeight := 0 }, visible := [],
          wasVisible := [], pool := [], nextHandle := 0,
          heap := fun _ => ⟨0, false, false⟩ } true).visible = [] :=
  c6_empty_viewport_renders_nothing
    { list := { uniformScenario with scrollerHeight := 0 }, visible := [],
      wasVisible := [], pool := [], nextHandle := 0,
      heap := fun _ => ⟨0, false, false⟩ } true (by with_unfolding_all decide)

/-- C7: when the content overflows the viewport, `ScrollToOffset` leaves
the offset clamped to [0, contentHeight - viewportHeight]; in particular a
negative argument yields offset 0. -/
theorem c7_scroll_offset_clamped (m : ListState) (y : ℚ)
    (h : m.scrollerHeight < (contentMinSize m).2) :
    0 ≤ (ScrollToOffset m y).offsetY ∧
    (ScrollToOffset m y).offsetY ≤ (contentMinSize m).2 - m.scrollerHeight ∧
    (y < 0 → (ScrollToOffset m y).offsetY = 0) := by
  unfold ScrollToOffset
  rw [if_neg (by push_neg; linarith)]
  dsimp only [scrollContainerClampY]
  set c := (contentMinSize m).2 with hc
  refine ⟨le_max_left _ _, ?_, ?_⟩
  · apply max_le
    · linarith
    · exact le_trans (min_le_right _ _) (le_refl _)
  · intro hy
    rw [if_pos hy]
    by_cases h1 : (0 : ℚ) > c
    · rw [if_pos h1]
      have h2 : min c (c - m.scrollerHeight) = c := min_eq_left (by linarith)
      rw [h2]
      exact max_eq_left (by linarith)
    · rw [if_neg h1]
      have h2 : min (0 : ℚ) (c - m.scrollerHeight) = 0 := min_eq_left (by linarith)
      rw [h2]
      exact max_eq_left (le_refl 0)

/-- C7 witness. -/
theorem c7_scroll_offset_clamped_witness :
    0 ≤ (ScrollToOffset uniformScenario (-5)).offsetY ∧
    (ScrollToOffset uniformScenario (-5)).offsetY ≤
      (contentMinSize uniformScenario).2 - uniformScenario.scrollerHeight ∧
    ((-5 : ℚ) < 0 → (ScrollToOffset uniformScenario (-5)).offsetY = 0) :=
  c7_scroll_offset_clamped uniformScenario (-5) (by with_unfolding_all decide)

/-- C10: selecting the already-selected item is a no-op: no state changes
and no callback fires. -/
theorem c10_select_idempotent (m : ListState) (id : Int) (rest : List Int)
    (hsel : m.selected = id :: rest) :
    Select m id = (m, []) := by
  unfold Select
  rw [hsel]
  simp

/-- C10 witness. -/
theorem c10_select_idempotent_witness :
    Select { uniformScenario with selected := [5] } 5 =
      ({ uniformScenario with selected := [5] }, []) :=
  c10_select_idempotent { uniformScenario with selected := [5] } 5 [] rfl

/-- C2: after every call to `updateList` - for any offset, viewport size,
item count and previous state - the visible set is strictly ascending by
row ID, the invariant the next pass's binary search relies on. -/
theorem c2_visible_sorted (s : LayoutState) (b : Bool) :
    (updateList s b).visible.Pairwise (fun a b => a.id < b.id) := by
  unfold updateList
  dsimp only
  split
  · exact List.Pairwise.nil
  · exact (updateRows_sorted (s.wasVisible ++ s.visible)
      (calculateVisibleRowHeights s.list).2.1 s.list.hasCreateItem
      (calculateVisibleRowHeights s.list).2.2 0 [] s.pool s.nextHandle
      List.Pairwise.nil (fun e he => absurd he (List.not_mem_nil e))).1

/-- C4: in a reconciliation pass starting from a strictly-sorted previous
visible set, every row ID that is both previously visible and inside the
newly computed range keeps exactly its previous handle in the new visible
set. -/
theorem c4_handle_reuse (s : LayoutState) (b : Bool) (h : Nat) (id : Int)
    (hsorted : (s.wasVisible ++ s.visible).Pairwise (fun a b => a.id < b.id))
    (hmem : (⟨h, id⟩ : Entry) ∈ s.visible)
    (hlo : (calculateVisibleRowHeights s.list).2.1 ≤ id)
    (hhi : id < (calculateVisibleRowHeights s.list).2.1 +
      ((calculateVisibleRowHeights s.list).2.2.length : Int)) :
    (⟨h, id⟩ : Entry) ∈ (updateList s b).visible := by
  have hsearch : searchVisible (s.wasVisible ++ s.visible) id = some h :=
    searchVisible_eq_some_of_mem _ hsorted h id (List.mem_append_right _ hmem)
  have hne : ¬ ((calculateVisibleRowHeights s.list).2.2.length = 0 ∧ 0 < s.list.length) := by
    rintro ⟨hz, -⟩
    rw [hz] at hhi
    simp at hhi
    omega
  have hjeq : (((id - (calculateVisibleRowHeights s.list).2.1).toNat : Nat) : Int) +
      (calculateVisibleRowHeights s.list).2.1 = id := by omega
  unfold updateList
  dsimp only
  rw [if_neg hne]
  dsimp only
  have hfound := updateRows_mem_of_found (s.wasVisible ++ s.visible)
    (calculateVisibleRowHeights s.list).2.1 s.list.hasCreateItem
    (calculateVisibleRowHeights s.list).2.2 0 [] s.pool s.nextHandle
    ((id - (calculateVisibleRowHeights s.list).2.1).toNat) h (Nat.zero_le _)
    (by omega) (by rw [hjeq]; exact hsearch)
  rw [hjeq] at hfound
  exact hfound

/-- A previously-visible row reused across a pass where the range still
contains it: row 0 stays bound to handle 0. -/
def reuseScenario : LayoutState :=
  { list := uniformScenario, visible := [⟨0, 0⟩], wasVisible := [], pool := [],
    nextHandle := 1, heap := fun _ => ⟨0, false, false⟩ }

/-- C4 witness. -/
theorem c4_handle_reuse_witness :
    (⟨0, 0⟩ : Entry) ∈ (updateList reuseScenario true).visible :=
  c4_handle_reuse reuseScenario true 0 0 (by with_unfolding_all decide)
    (by with_unfolding_all decide) (by with_unfolding_all decide)
    (by with_unfolding_all decide)

/-- A pass in which row 0 leaves the visible set (offset scrolled to 315),
releasing its handle 0 to the pool. -/
def releaseScenario : LayoutState :=
  { list := { uniformScenario with offsetY := 315 }, visible := [⟨0, 0⟩],
    wasVisible := [], pool := [], nextHandle := 1,
    heap := fun _ => ⟨0, false, false⟩ }

/-- C9, counterexample: when handle 0 (bound to row 0) is released to the
pool, its fields - including the back-reference id = 0, its previous row -
are completely unchanged: the release path clears nothing before the
handle can be reused. -/
theorem c9_stale_id_counterexample :
    (updateList releaseScenario true).pool = [0] ∧
    ((updateList releaseScenario true).heap 0).id = 0 ∧
    (updateList releaseScenario true).heap 0 = releaseScenario.heap 0 := by
  with_unfolding_all decide

/-- C9, amended: releasing a handle to the pool leaves its fields,
including the back-reference to its previous row ID, untouched (the fields
of every handle not in the new visible set are unchanged by a pass); the
stale ID is only overwritten when `setupListItem` next binds the handle to
a row, at which point the bound ID is stored. -/
theorem c9_release_keeps_backreference :
    (∀ (s : LayoutState) (b : Bool) (t : Nat),
        (∀ e ∈ (updateList s b).visible, e.item ≠ t) →
        (updateList s b).heap t = s.heap t) ∧
    (∀ (lst : ListState) (li : ItemFields) (id : Int) (focus : Bool),
        (setupFields lst li id focus).id = id) := by
  constructor
  · intro s b t hnot
    unfold updateList at hnot ⊢
    dsimp only at hnot ⊢
    by_cases hcond : (calculateVisibleRowHeights s.list).2.2.length = 0 ∧ 0 < s.list.length
    · rw [if_pos hcond]
    · rw [if_neg hcond] at hnot ⊢
      dsimp only at hnot ⊢
      cases b with
      | true =>
          rw [if_pos rfl]
          refine foldl_heap_unchanged _ ?_ _ s.heap t hnot
          intro hp e t' ht'
          dsimp only
          split
          · exact setupEntry_ne s.list hp e t' ht'
          · rfl
      | false =>
          rw [if_neg Bool.false_ne_true]
          exact foldl_heap_unchanged _ (fun hp e t' ht' => setupEntry_ne s.list hp e t' ht')
            _ s.heap t hnot
  · intro lst li id focus
    rfl

/-- C9 witness for the amended claim. -/
theorem c9_release_keeps_backreference_witness :
    (updateList releaseScenario true).heap 0 = releaseScenario.heap 0 ∧
    (setupFields uniformScenario ⟨0, false, false⟩ 7 false).id = 7 :=
  ⟨c9_release_keeps_backreference.1 releaseScenario true 0 (by with_unfolding_all decide),
   c9_release_keeps_backreference.2 uniformScenario ⟨0, false, false⟩ 7 false⟩

/-- A map write stores the value at its key. -/
theorem mapLookup_mapInsert_self : ∀ (l : List (Int × ℚ)) (id : Int) (h : ℚ),
    mapLookup (mapInsert l id h) id = some h := by
  intro l
  induction l with
  | nil => intro id h; simp [mapInsert, mapLookup]
  | cons kv rest ih =>
      intro id h
      obtain ⟨k, v⟩ := kv
      simp only [mapInsert]
      by_cases hk : k = id
      · rw [if_pos hk]
        simp [mapLookup]
      · rw [if_neg hk]
        simp only [mapLookup]
        rw [if_neg hk]
        exact ih id h

/-- A map write leaves every other key unchanged. -/
theorem mapLookup_mapInsert_ne : ∀ (l : List (Int × ℚ)) (id : Int) (h : ℚ) (k : Int),
    k ≠ id → mapLookup (mapInsert l id h) k = mapLookup l k := by
  intro l
  induction l with
  | nil =>
      intro id h k hk
      simp only [mapInsert, mapLookup]
      rw [if_neg (fun he => hk he.symm)]
  | cons kv rest ih =>
      intro id h k hk
      obtain ⟨k', v⟩ := kv
      simp only [mapInsert]
      by_cases hk' : k' = id
      · rw [if_pos hk']
        simp only [mapLookup]
        rw [if_neg (fun he => hk he.symm), if_neg (fun he => hk (hk' ▸ he).symm)]
      · rw [if_neg hk']
        simp only [mapLookup]
        by_cases hkk : k' = k
        · rw [if_pos hkk, if_pos hkk]
        · rw [if_neg hkk, if_neg hkk]
          exact ih id h k hk

/-- A map write never empties the table. -/
theorem mapInsert_ne_nil (l : List (Int × ℚ)) (id : Int) (h : ℚ) :
    mapInsert l id h ≠ [] := by
  cases l with
  | nil => simp [mapInsert]
  | cons kv rest =>
      obtain ⟨k, v⟩ := kv
      simp only [mapInsert]
      split <;> simp

/-- Writing a key at or beyond the item count leaves the live part of the
height table (the entries with ID below the count) unchanged. -/
theorem filter_live_mapInsert (n : Int) : ∀ (l : List (Int × ℚ)) (id : Int) (h : ℚ),
    ¬ id < n →
    (mapInsert l id h).filter (fun kv => kv.1 < n) = l.filter (fun kv => kv.1 < n) := by
  intro l
  induction l with
  | nil =>
      intro id h hid
      simp [mapInsert, List.filter, hid]
  | cons kv rest ih =>
      intro id h hid
      obtain ⟨k, v⟩ := kv
      simp only [mapInsert]
      by_cases hk : k = id
      · rw [if_pos hk]
        subst hk
        simp only [List.filter]
        rw [decide_eq_false hid]
      · rw [if_neg hk]
        simp only [List.filter]
        cases hd : decide (k < n) with
        | true => rw [ih id h hid]
        | false => exact ih id h hid

/-- The linear scan reads the height table only at the rows of its
remaining window; two states identical except for lookups outside that
window scan identically. -/
theorem cvrhScan_congr (m m' : ListState) (itemHeight padding : ℚ)
    (hoff : m'.offsetY = m.offsetY) (hsch : m'.scrollerHeight = m.scrollerHeight) :
    ∀ (remaining i : Nat) (rowOffset offY : ℚ) (minRow : Int) (isVisible : Bool) (acc : List ℚ),
      (∀ k : Nat, i ≤ k → k < i + remaining →
        mapLookup m'.itemHeights (k : Int) = mapLookup m.itemHeights (k : Int)) →
      cvrhScan m' itemHeight padding remaining i rowOffset offY minRow isVisible acc =
      cvrhScan m itemHeight padding remaining i rowOffset offY minRow isVisible acc := by
  intro remaining
  induction remaining with
  | zero => intro i rowOffset offY minRow isVisible acc _; rfl
  | succ remaining ih =>
      intro i rowOffset offY minRow isVisible acc hlook
      have hh : mapLookup m'.itemHeights (i : Int) = mapLookup m.itemHeights (i : Int) :=
        hlook i (le_refl i) (by omega)
      simp only [cvrhScan, hh, hoff, hsch]
      have hrec := fun rowOffset offY minRow isVisible acc =>
        ih (i + 1) rowOffset offY minRow isVisible acc
          (fun k hk1 hk2 => hlook k (by omega) (by omega))
      split
      · rfl
      · exact hrec _ _ _ _ _

/-- C8, counterexample: on an empty height table, setting an override for
an ID equal to the item count (a stale override) changes the visible-range
computation: it flips the uniform fast path to the linear scan, which
returns 10 rows instead of 11 at offset 0 in the uniform scenario. -/
theorem c8_stale_override_counterexample :
    (uniformScenario.length : Int) ≤ 1000 ∧
    (calculateVisibleRowHeights uniformScenario).2.2.length = 11 ∧
    (calculateVisibleRowHeights (SetItemHeight uniformScenario 1000 50)).2.2.length = 10 := by
  with_unfolding_all decide

/-- C8, amended: an override stored for an ID at or beyond the current item
count is retained in the height table, is untouched when the item count
changes (so it applies again if the list re-grows), contributes nothing to
the content-size computation, and leaves the visible-range computation
unchanged provided the height table already had some entry; the one
exception is that the very first stored override - live or stale - switches
the computation from the uniform fast path to the linear scan, which can
return one fewer row at the viewport edge. -/
theorem c8_stale_overrides_inert :
    (∀ (m : ListState) (id : Int) (h : ℚ),
        mapLookup (SetItemHeight m id h).itemHeights id = some h) ∧
    (∀ (m : ListState) (n : Nat), (setLength m n).itemHeights = m.itemHeights) ∧
    (∀ (m : ListState) (id : Int) (h : ℚ), (m.length : Int) ≤ id →
        contentMinSize (SetItemHeight m id h) = contentMinSize m) ∧
    (∀ (m : ListState) (id : Int) (h : ℚ), (m.length : Int) ≤ id →
        m.itemHeights ≠ [] →
        calculateVisibleRowHeights (SetItemHeight m id h) =
          calculateVisibleRowHeights m) := by
  refine ⟨fun m id h => mapLookup_mapInsert_self m.itemHeights id h,
          fun m n => rfl, ?_, ?_⟩
  · intro m id h hid
    have hid' : ¬ id < (m.length : Int) := by omega
    unfold contentMinSize SetItemHeight
    dsimp only
    by_cases hemp : m.itemHeights = []
    · rw [if_neg (mapInsert_ne_nil _ _ _), if_pos hemp]
      rw [hemp]
      simp only [mapInsert, List.filter]
      rw [decide_eq_false hid']
      simp only [List.filter_nil, List.length_nil, List.map_nil, List.sum_nil]
      push_cast
      ring_nf
    · rw [if_neg (mapInsert_ne_nil _ _ _), if_neg hemp,
          filter_live_mapInsert (m.length : Int) m.itemHeights id h hid']
  · intro m id h hid hne
    unfold calculateVisibleRowHeights SetItemHeight
    dsimp only
    rw [if_neg (mapInsert_ne_nil _ _ _), if_neg hne]
    by_cases hsh : m.scrollerHeight ≤ 0
    · rw [if_pos hsh, if_pos hsh]
    · rw [if_neg hsh, if_neg hsh]
      exact cvrhScan_congr m { m with itemHeights := mapInsert m.itemHeights id h }
        m.itemMinH m.padding rfl rfl m.length 0 0 0 0 false []
        (fun k hk1 hk2 => mapLookup_mapInsert_ne m.itemHeights id h (k : Int) (by omega))

/-- C8 witness for the amended claim. -/
theorem c8_stale_overrides_inert_witness :
    mapLookup (SetItemHeight uniformScenario 1000 50).itemHeights 1000 = some 50 ∧
    (setLength (SetItemHeight uniformScenario 1000 50) 500).itemHeights =
      (SetItemHeight uniformScenario 1000 50).itemHeights ∧
    contentMinSize (SetItemHeight { uniformScenario with itemHeights := [(0, 40)] } 1000 50) =
      contentMinSize { uniformScenario with itemHeights := [(0, 40)] } ∧
    calculateVisibleRowHeights
        (SetItemHeight { uniformScenario with itemHeights := [(0, 40)] } 1000 50) =
      calculateVisibleRowHeights { uniformScenario with itemHeights := [(0, 40)] } :=
  ⟨c8_stale_overrides_inert.1 uniformScenario 1000 50,
   c8_stale_overrides_inert.2.1 (SetItemHeight uniformScenario 1000 50) 500,
   c8_stale_overrides_inert.2.2.1 { uniformScenario with itemHeights := [(0, 40)] } 1000 50
     (by with_unfolding_all decide),
   c8_stale_overrides_inert.2.2.2 { uniformScenario with itemHeights := [(0, 40)] } 1000 50
     (by with_unfolding_all decide) (by with_unfolding_all decide)⟩

end AdvList
